import Mathlib

/-!
Verification of the astrocalc engine (sun/moon ephemeris library).

Modelling conventions:
* Go `int64` values are modelled as `ℤ`; Go integer `/` and `%` (which
  truncate toward zero) are `Int.tdiv` / `Int.tmod`.
* A `time.Time` instant is modelled as its total number of nanoseconds
  since the Unix epoch (`t.Unix()` is the floor of that value over `1e9`,
  `t.Nanosecond()` the non-negative remainder, exactly as Go stores it).
* Go `float64` arithmetic is modelled by exact real arithmetic over `ℝ`;
  `math.Atan2 y x` is `Complex.arg ⟨x, y⟩`, `math.Asin`/`math.Acos` are
  `Real.arcsin`/`Real.arccos`.  Where a NaN result matters (the `Acos`
  call in `hourAngle`), the value is modelled as `Option ℝ` with `none`
  playing the role of NaN, and propagated through `Option.map`.
* `math.Modf` splits off the integer part by truncation toward zero;
  it is modelled by `truncInt`.
-/

namespace Astrocalc

/-! ### Date/time constants (source: `astrocalc.go`, `const` block) -/

def daySec : ℤ := 60 * 60 * 24

def halfDaySec : ℤ := 60 * 60 * 12

def halfDayNano : ℤ := 1000000000 * 60 * 60 * 12

def j1970 : ℤ := 2440588

def j2000 : ℤ := 2451545

/-! ### JulianDate and the integer layer -/

/-- A Julian date: whole-day count plus nanoseconds since the beginning of
the (noon-based) Julian day.  Mirrors the Go struct `JulianDate`. -/
structure JulianDate where
  julianDayNumber : ℤ
  time : ℤ
deriving DecidableEq, Repr

/-- Go `integerDivide`: truncating division plus remainder fix-up, yielding
floor-division semantics for positive divisors. -/
def integerDivide (a b : ℤ) : ℤ × ℤ :=
  let q := a.tdiv b
  let r := a.tmod b
  if r < 0 then (q - 1, r + b) else (q, r)

/-- Go method `removeHalfDay` (value-level: returns the updated struct). -/
def removeHalfDay (j : JulianDate) : JulianDate :=
  if j.time < halfDayNano then
    ⟨j.julianDayNumber - 1, j.time + halfDayNano⟩
  else
    ⟨j.julianDayNumber, j.time - halfDayNano⟩

/-- Go `t.Unix()` for an instant given as total nanoseconds. -/
def unixSec (t : ℤ) : ℤ := t / 1000000000

/-- Go `t.Nanosecond()` for an instant given as total nanoseconds. -/
def nanosecond (t : ℤ) : ℤ := t % 1000000000

/-- Go `NewJulian`: convert an instant to a `JulianDate`. -/
def NewJulian (t : ℤ) : JulianDate :=
  let p := integerDivide (unixSec t) daySec
  removeHalfDay ⟨p.1 + j1970, p.2 * 1000000000 + nanosecond t⟩

/-- Go `toDays`: `NewJulian` with the day number reduced by the J2000 epoch. -/
def toDays (t : ℤ) : JulianDate :=
  let jdn := NewJulian t
  ⟨jdn.julianDayNumber - j2000, jdn.time⟩

/-- Go method `Time`: the instant (total nanoseconds) denoted by a
`JulianDate`, via `time.Unix((jdn-j1970)*daySec+halfDaySec, j.time)`. -/
def JulianDate.Time (j : JulianDate) : ℤ :=
  ((j.julianDayNumber - j1970) * daySec + halfDaySec) * 1000000000 + j.time

/-- Go method `DayTime`. -/
def JulianDate.DayTime (j : JulianDate) : ℤ × ℤ :=
  (j.julianDayNumber, j.time)

/-- Go `JulianFromDayTime`. -/
def JulianFromDayTime (julianDayNumber time : ℤ) : JulianDate :=
  ⟨julianDayNumber, time⟩

/-! ### Helper facts about truncating division -/

theorem tmod_bounds (a : ℤ) {b : ℤ} (hb : 0 < b) : -b < a.tmod b ∧ a.tmod b < b := by
  have h1 : a.tmod b = a - b * a.tdiv b := Int.tmod_def a b
  have h2 : (-a).tmod b = -a - b * (-a).tdiv b := Int.tmod_def (-a) b
  have h3 : (-a).tdiv b = -(a.tdiv b) := Int.neg_tdiv a b
  have h4 : (-a).tmod b < b := Int.tmod_lt_of_pos (-a) hb
  have h5 : a.tmod b < b := Int.tmod_lt_of_pos a hb
  have h6 : a.tmod b = -((-a).tmod b) := by
    rw [h1, h2, h3]; ring
  omega

theorem integerDivide_spec (a : ℤ) {b : ℤ} (hb : 0 < b) :
    b * (integerDivide a b).1 + (integerDivide a b).2 = a ∧
    0 ≤ (integerDivide a b).2 ∧ (integerDivide a b).2 < b := by
  have hqr : b * a.tdiv b + a.tmod b = a := Int.tdiv_add_tmod a b
  have hlo : -b < a.tmod b := (tmod_bounds a hb).1
  have hhi : a.tmod b < b := (tmod_bounds a hb).2
  unfold integerDivide
  dsimp only
  split
  · exact ⟨by linear_combination hqr, by omega, by omega⟩
  · exact ⟨hqr, by omega, by omega⟩

/-! ### C1: instant → JulianDate → instant round trip -/

/-- C1: for every instant `t` (total nanoseconds since the Unix epoch),
converting to a `JulianDate` with `NewJulian` and back with `Time` returns
exactly `t`: the floor-division day split, the noon-boundary half-day shift
and the reconstruction formula are exact inverses. -/
theorem C1_fromInstant_toInstant_roundtrip (t : ℤ) :
    (NewJulian t).Time = t := by
  have hu : (1000000000 : ℤ) * (t / 1000000000) + t % 1000000000 = t :=
    Int.ediv_add_emod t 1000000000
  have hd : (60 * 60 * 24 : ℤ) * ((t / 1000000000).tdiv (60 * 60 * 24)) +
      (t / 1000000000).tmod (60 * 60 * 24) = t / 1000000000 :=
    Int.tdiv_add_tmod (t / 1000000000) (60 * 60 * 24)
  unfold JulianDate.Time NewJulian removeHalfDay integerDivide unixSec nanosecond
  unfold daySec halfDaySec halfDayNano j1970
  dsimp only
  split <;> dsimp only <;> split <;> dsimp only <;> nlinarith [hu, hd]

/-! ### Real-number layer: float64 arithmetic modelled over ℝ -/

noncomputable section

open Real

/-- Integer part by truncation toward zero: models both Go's `math.Modf`
integer part and Go's `int64(float64)` conversion. -/
def truncInt (x : ℝ) : ℤ := if 0 ≤ x then ⌊x⌋ else ⌈x⌉

/-- Go `JulianFromFloat`: split a fractional Julian day via `math.Modf` and
scale the fractional part to nanoseconds (`frac * daySec * 1e9`). -/
def JulianFromFloat (j : ℝ) : JulianDate :=
  ⟨truncInt j, truncInt ((j - (truncInt j : ℝ)) * 86400 * 1000000000)⟩

theorem truncInt_nonneg {x : ℝ} (h : 0 ≤ x) : 0 ≤ truncInt x := by
  unfold truncInt
  rw [if_pos h]
  exact Int.floor_nonneg.mpr h

theorem truncInt_bounds {x : ℝ} {c : ℤ} (h1 : -(c : ℝ) < x) (h2 : x < c) :
    -c < truncInt x ∧ truncInt x < c := by
  unfold truncInt
  split
  · constructor
    · have h0 : (0 : ℤ) ≤ ⌊x⌋ := Int.floor_nonneg.mpr (by assumption)
      have hc : (0 : ℝ) < c := lt_of_le_of_lt (by assumption) h2
      have : (0 : ℤ) < c := by exact_mod_cast hc
      omega
    · exact Int.floor_lt.mpr h2
  · constructor
    · exact Int.lt_ceil.mpr (by push_cast; linarith)
    · have hx : x < 0 := lt_of_not_le (by assumption)
      have h0 : ⌈x⌉ ≤ 0 := Int.ceil_le.mpr (by exact_mod_cast hx.le)
      have hc : (0 : ℝ) < c := by linarith
      have : (0 : ℤ) < c := by exact_mod_cast hc
      omega

/-! ### C3: range of the timeOfDay component -/

/-- C3 counterexample: `JulianFromFloat` on the negative input `-0.5`
produces `time = -43200e9`, outside the claimed range `[0, 86400e9)`. -/
theorem C3_counterexample :
    (JulianFromFloat (-(1 / 2))).time = -43200000000000 ∧
      (JulianFromFloat (-(1 / 2))).time < 0 := by
  have h1 : truncInt (-(1 / 2) : ℝ) = 0 := by
    unfold truncInt
    rw [if_neg (by norm_num), Int.ceil_eq_iff]
    norm_num
  have h2 : ((-(1 / 2) : ℝ) - ((truncInt (-(1 / 2) : ℝ) : ℤ) : ℝ)) * 86400 * 1000000000 =
      ((-43200000000000 : ℤ) : ℝ) := by
    rw [h1]; norm_num
  constructor
  · show truncInt _ = _
    rw [h2]
    unfold truncInt
    rw [if_neg (by norm_num), Int.ceil_intCast]
  · show truncInt _ < 0
    rw [h2]
    unfold truncInt
    rw [if_neg (by norm_num), Int.ceil_intCast]
    norm_num

/-- C3 amended: `NewJulian` always produces `time ∈ [0, 86400e9)`; for
`JulianFromFloat` the guarantee is only `time ∈ (−86400e9, 86400e9)` in
general, with `time ∈ [0, 86400e9)` when the input is non-negative
(negative fractional days yield a negative `time`). -/
theorem C3_timeOfDay_range :
    (∀ t : ℤ, 0 ≤ (NewJulian t).time ∧ (NewJulian t).time < 86400000000000) ∧
      (∀ j : ℝ, -86400000000000 < (JulianFromFloat j).time ∧
        (JulianFromFloat j).time < 86400000000000 ∧
        (0 ≤ j → 0 ≤ (JulianFromFloat j).time)) := by
  constructor
  · intro t
    have hid := integerDivide_spec (unixSec t) (b := 60 * 60 * 24) (by norm_num)
    have hn1 : 0 ≤ t % 1000000000 := Int.emod_nonneg t (by norm_num)
    have hn2 : t % 1000000000 < 1000000000 := Int.emod_lt_of_pos t (by norm_num)
    unfold NewJulian removeHalfDay nanosecond daySec halfDayNano
    dsimp only
    split <;> dsimp only <;> omega
  · intro j
    rcases le_or_lt 0 j with hj | hj
    · have hfr0 : 0 ≤ j - (truncInt j : ℝ) := by
        unfold truncInt
        rw [if_pos hj]
        have := Int.floor_le j
        linarith
      have hfr1 : j - (truncInt j : ℝ) < 1 := by
        unfold truncInt
        rw [if_pos hj]
        have := Int.lt_floor_add_one j
        linarith
      have harg0 : 0 ≤ (j - (truncInt j : ℝ)) * 86400 * 1000000000 := by positivity
      have harg1 : (j - (truncInt j : ℝ)) * 86400 * 1000000000 <
          ((86400000000000 : ℤ) : ℝ) := by
        push_cast
        nlinarith
      have hb := truncInt_bounds (c := 86400000000000)
        (x := (j - (truncInt j : ℝ)) * 86400 * 1000000000)
        (by push_cast; linarith) harg1
      refine ⟨hb.1, hb.2, fun _ => truncInt_nonneg harg0⟩
    · have hfr0 : j - (truncInt j : ℝ) ≤ 0 := by
        unfold truncInt
        rw [if_neg (not_le.mpr hj)]
        have := Int.le_ceil j
        linarith
      have hfr1 : -1 < j - (truncInt j : ℝ) := by
        unfold truncInt
        rw [if_neg (not_le.mpr hj)]
        have := Int.ceil_lt_add_one j
        linarith
      have harg1 : (j - (truncInt j : ℝ)) * 86400 * 1000000000 <
          ((86400000000000 : ℤ) : ℝ) := by
        push_cast
        nlinarith
      have harg0 : -((86400000000000 : ℤ) : ℝ) <
          (j - (truncInt j : ℝ)) * 86400 * 1000000000 := by
        push_cast
        nlinarith
      have hb := truncInt_bounds harg0 harg1
      refine ⟨hb.1, hb.2, fun h0 => absurd h0 (not_le.mpr hj)⟩

/-- C3 witness: the amended range statement applied at concrete inputs. -/
theorem C3_witness :
    (0 : ℝ) ≤ 1 / 2 ∧ 0 ≤ (JulianFromFloat (1 / 2)).time ∧ 0 ≤ (NewJulian 0).time :=
  ⟨by norm_num, (C3_timeOfDay_range.2 (1 / 2)).2.2 (by norm_num), (C3_timeOfDay_range.1 0).1⟩

/-! ### Angular and coordinate math (source: "general calculations for position") -/

def rad : ℝ := π / 180

/-- Obliquity of the Earth, source constant `e`. -/
def e : ℝ := rad * 23.4397

def stCoef0Nano : ℤ := 28016 * 10000000

def stCoef1Nano : ℤ := 3609856235 * 100

def maCoef0Nano : ℤ := 3575291 * 100000

def maCoef1Nano : ℤ := 985600280

/-- Go `math.Atan2 y x`, modelled as the argument of the complex number
`x + y·i`, which lies in `(-π, π]`. -/
def atan2 (y x : ℝ) : ℝ := Complex.arg ⟨x, y⟩

def rightAscension (l b : ℝ) : ℝ :=
  atan2 (sin l * cos e - tan b * sin e) (cos l)

def declination (l b : ℝ) : ℝ :=
  arcsin (sin b * cos e + cos b * sin e * sin l)

def azimuth (H phi dec : ℝ) : ℝ :=
  atan2 (sin H) (cos H * sin phi - tan dec * cos phi)

/-- The argument passed to `math.Asin` inside `altitude`. -/
def altitudeArg (H phi dec : ℝ) : ℝ :=
  sin phi * sin dec + cos phi * cos dec * cos H

def altitude (H phi dec : ℝ) : ℝ := arcsin (altitudeArg H phi dec)

/-- The value of `siderealTime` before `lw` is subtracted:
integer-modular reduction of the periodic term, then conversion to radians
with the sub-day contribution added from the nanosecond field. -/
def stBase (d : JulianDate) : ℝ :=
  rad * ((((stCoef0Nano + d.julianDayNumber * stCoef1Nano).tmod (360 * 1000000000) : ℤ) : ℝ) /
      1000000000 +
    (d.time : ℝ) / 86400 * ((stCoef1Nano : ℝ) / 1000000000000000000))

def siderealTime (d : JulianDate) (lw : ℝ) : ℝ :=
  if stBase d - lw < 0 then stBase d - lw + 2 * π else stBase d - lw

/-- The value of `solarMeanAnomaly` before the negativity correction. -/
def maBase (d : JulianDate) : ℝ :=
  rad * ((((maCoef0Nano + d.julianDayNumber * maCoef1Nano).tmod (360 * 1000000000) : ℤ) : ℝ) /
      1000000000 +
    (d.time : ℝ) / 86400 * ((maCoef1Nano : ℝ) / 1000000000000000000))

def solarMeanAnomaly (d : JulianDate) : ℝ :=
  if maBase d < 0 then maBase d + 2 * π else maBase d

def eclipticLongitude (m : ℝ) : ℝ :=
  m + rad * (1.9148 * sin m + 0.02 * sin (2 * m) + 0.0003 * sin (3 * m)) + rad * 102.9372 + π

def sunCoords (d : JulianDate) : ℝ × ℝ :=
  (declination (eclipticLongitude (solarMeanAnomaly d)) 0,
   rightAscension (eclipticLongitude (solarMeanAnomaly d)) 0)

/-! ### SunCalc configuration -/

structure sunTime where
  angle : ℝ
  riseName : String
  setName : String

structure SunCalc where
  times : List sunTime

def NewSunCalc : SunCalc :=
  ⟨[⟨-0.833, "sunrise", "sunset"⟩,
    ⟨-0.3, "sunriseEnd", "sunsetStart"⟩,
    ⟨-6, "dawn", "dusk"⟩,
    ⟨-12, "nauticalDawn", "nauticalDusk"⟩,
    ⟨-18, "nightEnd", "night"⟩,
    ⟨6, "goldenHourEnd", "goldenHour"⟩]⟩

def AddTime (s : SunCalc) (angle : ℝ) (riseName setName : String) : SunCalc :=
  ⟨s.times ++ [⟨angle, riseName, setName⟩]⟩

def lwOf (lng : ℝ) : ℝ := rad * (-lng)

def phiOf (lat : ℝ) : ℝ := rad * lat

def GetPosition (t : ℤ) (lat lng : ℝ) : ℝ × ℝ :=
  (azimuth (siderealTime (toDays t) (lwOf lng) - (sunCoords (toDays t)).2) (phiOf lat)
     (sunCoords (toDays t)).1,
   altitude (siderealTime (toDays t) (lwOf lng) - (sunCoords (toDays t)).2) (phiOf lat)
     (sunCoords (toDays t)).1)

/-! ### Sun-times pipeline -/

def j0 : ℝ := 0.0009

/-- Go helper `round`: scale by `10^places`, split with `math.Modf`, and
take `math.Ceil` when the fractional part is at least `roundOn`, else
`math.Floor`. -/
def round (val roundOn : ℝ) (places : ℕ) : ℝ :=
  let pow : ℝ := 10 ^ places
  let digit := pow * val
  let div := digit - (truncInt digit : ℝ)
  (if roundOn ≤ div then ((⌈digit⌉ : ℤ) : ℝ) else ((⌊digit⌋ : ℤ) : ℝ)) / pow

def julianCycle (d : JulianDate) (lw : ℝ) : ℝ :=
  round ((d.julianDayNumber : ℝ) + (d.time : ℝ) / (86400 * 1000000000) - j0 - lw / (2 * π))
    0.5 0

def approxTransit (Ht lw n : ℝ) : ℝ := j0 + (Ht + lw) / (2 * π) + n

def solarTransitJ (ds M L : ℝ) : ℝ :=
  (j2000 : ℝ) + ds + 0.0053 * sin M - 0.0069 * sin (2 * L)

/-- Go `hourAngle` = `math.Acos((sin h − sin φ · sin d)/(cos φ · cos d))`,
with `none` standing for the NaN produced when the quotient is undefined
or falls outside `[-1, 1]`. -/
def hourAngle (h phi d : ℝ) : Option ℝ :=
  if cos phi * cos d ≠ 0 ∧ |(sin h - sin phi * sin d) / (cos phi * cos d)| ≤ 1 then
    some (arccos ((sin h - sin phi * sin d) / (cos phi * cos d)))
  else none

def getSetJ (h lw phi dec n m l : ℝ) : Option ℝ :=
  (hourAngle h phi dec).map fun w => solarTransitJ (approxTransit w lw n) m l

/-- Conversion chain `JulianFromFloat(x).Time()` used on every value
emitted by `GetTimes`. -/
def timeOfJ (x : ℝ) : ℤ := (JulianFromFloat x).Time

def nCycleAt (t : ℤ) (lng : ℝ) : ℝ := julianCycle (toDays t) (lwOf lng)

def dsAt (t : ℤ) (lng : ℝ) : ℝ := approxTransit 0 (lwOf lng) (nCycleAt t lng)

def mAt (t : ℤ) (lng : ℝ) : ℝ := solarMeanAnomaly (JulianFromFloat (dsAt t lng))

def lAt (t : ℤ) (lng : ℝ) : ℝ := eclipticLongitude (mAt t lng)

def decAt (t : ℤ) (lng : ℝ) : ℝ := declination (lAt t lng) 0

def jNoonAt (t : ℤ) (lng : ℝ) : ℝ := solarTransitJ (dsAt t lng) (mAt t lng) (lAt t lng)

def jSetOf (st : sunTime) (t : ℤ) (lat lng : ℝ) : Option ℝ :=
  getSetJ (st.angle * rad) (lwOf lng) (phiOf lat) (decAt t lng) (nCycleAt t lng) (mAt t lng)
    (lAt t lng)

def jRiseOf (st : sunTime) (t : ℤ) (lat lng : ℝ) : Option ℝ :=
  (jSetOf st t lat lng).map fun js => jNoonAt t lng - (js - jNoonAt t lng)

/-- The Go result map `map[string]time.Time`: `none` means "key absent";
a present key carries `Option ℤ`, where the inner `none` is a
NaN-derived value. -/
def EventMap := String → Option (Option ℤ)

def mapInsert (k : String) (v : Option ℤ) (m : EventMap) : EventMap :=
  fun k' => if k' = k then some v else m k'

/-- One iteration of the `for _, t := range s.times` loop of `GetTimes`. -/
def stepEntry (t : ℤ) (lat lng : ℝ) (acc : EventMap) (st : sunTime) : EventMap :=
  let acc1 :=
    if st.riseName ≠ "" then mapInsert st.riseName ((jRiseOf st t lat lng).map timeOfJ) acc
    else acc
  if st.setName ≠ "" then mapInsert st.setName ((jSetOf st t lat lng).map timeOfJ) acc1
  else acc1

def GetTimes (s : SunCalc) (t : ℤ) (lat lng : ℝ) : EventMap :=
  s.times.foldl (stepEntry t lat lng)
    (mapInsert "nadir" (some (timeOfJ (jNoonAt t lng - 0.5)))
      (mapInsert "solarNoon" (some (timeOfJ (jNoonAt t lng))) fun _ => none))

/-! ### Moon position and illumination -/

def moonCoords (jd : JulianDate) : ℝ × ℝ × ℝ :=
  let d := (jd.julianDayNumber : ℝ) + (jd.time : ℝ) / (1000000000 * 86400)
  let L := rad * (218.316 + 13.176396 * d)
  let M := rad * (134.963 + 13.064993 * d)
  let F := rad * (93.272 + 13.229350 * d)
  let l := L + rad * 6.289 * sin M
  let b := rad * 5.128 * sin F
  (declination l b, rightAscension l b, 385001 - 20905 * cos M)

def moonH (t : ℤ) (lng : ℝ) : ℝ :=
  siderealTime (toDays t) (lwOf lng) - (moonCoords (toDays t)).2.1

/-- Moon altitude before the empirical refraction correction. -/
def moonAltPre (t : ℤ) (lat lng : ℝ) : ℝ :=
  altitude (moonH t lng) (phiOf lat) (moonCoords (toDays t)).1

def GetMoonPosition (t : ℤ) (lat lng : ℝ) : ℝ × ℝ × ℝ :=
  (azimuth (moonH t lng) (phiOf lat) (moonCoords (toDays t)).1,
   moonAltPre t lat lng +
     rad * 0.017 /
       tan (moonAltPre t lat lng + rad * 10.26 / (moonAltPre t lat lng + rad * 5.10)),
   (moonCoords (toDays t)).2.2)

def sdist : ℝ := 149598000

def illumPsi (t : ℤ) : ℝ :=
  arccos (sin (sunCoords (toDays t)).1 * sin (moonCoords (toDays t)).1 +
    cos (sunCoords (toDays t)).1 * cos (moonCoords (toDays t)).1 *
      cos ((sunCoords (toDays t)).2 - (moonCoords (toDays t)).2.1))

def illumInc (t : ℤ) : ℝ :=
  atan2 (sdist * sin (illumPsi t)) ((moonCoords (toDays t)).2.2 - sdist * cos (illumPsi t))

def illumAngle (t : ℤ) : ℝ :=
  atan2 (cos (sunCoords (toDays t)).1 * sin ((sunCoords (toDays t)).2 - (moonCoords (toDays t)).2.1))
    (sin (sunCoords (toDays t)).1 * cos (moonCoords (toDays t)).1 -
      cos (sunCoords (toDays t)).1 * sin (moonCoords (toDays t)).1 *
        cos ((sunCoords (toDays t)).2 - (moonCoords (toDays t)).2.1))

def GetMoonIllumination (t : ℤ) : ℝ × ℝ × ℝ :=
  ((1 + cos (illumInc t)) / 2,
   0.5 + 0.5 * illumInc t * (if illumAngle t < 0 then -1 else 1) / π,
   illumAngle t)

/-- Modelled from the spec: the sign convention `sign(angle)` stated in the
moon-illumination phase formula (`−1` if the angle is negative, else `+1`). -/
def specSign (x : ℝ) : ℝ := if x < 0 then -1 else 1

/-! ### C8: moon-illumination phase sign convention -/

/-- C8: for every instant, the phase returned by `GetMoonIllumination` is
`0.5 + 0.5·inc·sign(angle)/π`, where `sign(angle)` is `−1` when the limb
angle is negative and `+1` otherwise — in particular an exact-zero angle
uses the `+1` branch. -/
theorem C8_phase_sign_convention (t : ℤ) :
    (GetMoonIllumination t).2.1 = 0.5 + 0.5 * illumInc t * specSign (illumAngle t) / π ∧
      specSign 0 = 1 := by
  refine ⟨rfl, ?_⟩
  unfold specSign
  norm_num

/-! ### C2: range of solarMeanAnomaly and siderealTime -/

theorem maBase_bounds (d : JulianDate) (ht0 : 0 ≤ d.time) (ht1 : d.time < 86400000000000) :
    rad * (-360) < maBase d ∧ maBase d < rad * (360 + 985600280 / 1000000000) := by
  have hm := tmod_bounds (maCoef0Nano + d.julianDayNumber * maCoef1Nano)
    (b := 360 * 1000000000) (by norm_num)
  have hrad : 0 < rad := by unfold rad; positivity
  have hi1 : -(360 : ℝ) <
      ((maCoef0Nano + d.julianDayNumber * maCoef1Nano).tmod (360 * 1000000000) : ℝ) /
        1000000000 := by
    have := hm.1
    have hc : (-(360 * 1000000000) : ℝ) <
        ((maCoef0Nano + d.julianDayNumber * maCoef1Nano).tmod (360 * 1000000000) : ℝ) := by
      exact_mod_cast this
    rw [lt_div_iff₀ (by norm_num : (0 : ℝ) < 1000000000)]
    linarith
  have hi2 : ((maCoef0Nano + d.julianDayNumber * maCoef1Nano).tmod (360 * 1000000000) : ℝ) /
      1000000000 < 360 := by
    have := hm.2
    have hc : ((maCoef0Nano + d.julianDayNumber * maCoef1Nano).tmod (360 * 1000000000) : ℝ) <
        (360 * 1000000000 : ℝ) := by exact_mod_cast this
    rw [div_lt_iff₀ (by norm_num : (0 : ℝ) < 1000000000)]
    linarith
  have htr0 : (0 : ℝ) ≤ (d.time : ℝ) := by exact_mod_cast ht0
  have htr1 : (d.time : ℝ) < 86400000000000 := by exact_mod_cast ht1
  have htt0 : 0 ≤ (d.time : ℝ) / 86400 * ((maCoef1Nano : ℝ) / 1000000000000000000) := by
    unfold maCoef1Nano
    positivity
  have htt1 : (d.time : ℝ) / 86400 * ((maCoef1Nano : ℝ) / 1000000000000000000) <
      985600280 / 1000000000 := by
    unfold maCoef1Nano
    push_cast
    nlinarith
  constructor
  · unfold maBase
    nlinarith
  · unfold maBase
    nlinarith

theorem stBase_bounds (d : JulianDate) (ht0 : 0 ≤ d.time) (ht1 : d.time < 86400000000000) :
    rad * (-360) < stBase d ∧ stBase d < rad * (7209856235 / 10000000) := by
  have hm := tmod_bounds (stCoef0Nano + d.julianDayNumber * stCoef1Nano)
    (b := 360 * 1000000000) (by norm_num)
  have hrad : 0 < rad := by unfold rad; positivity
  have hi1 : -(360 : ℝ) <
      ((stCoef0Nano + d.julianDayNumber * stCoef1Nano).tmod (360 * 1000000000) : ℝ) /
        1000000000 := by
    have := hm.1
    have hc : (-(360 * 1000000000) : ℝ) <
        ((stCoef0Nano + d.julianDayNumber * stCoef1Nano).tmod (360 * 1000000000) : ℝ) := by
      exact_mod_cast this
    rw [lt_div_iff₀ (by norm_num : (0 : ℝ) < 1000000000)]
    linarith
  have hi2 : ((stCoef0Nano + d.julianDayNumber * stCoef1Nano).tmod (360 * 1000000000) : ℝ) /
      1000000000 < 360 := by
    have := hm.2
    have hc : ((stCoef0Nano + d.julianDayNumber * stCoef1Nano).tmod (360 * 1000000000) : ℝ) <
        (360 * 1000000000 : ℝ) := by exact_mod_cast this
    rw [div_lt_iff₀ (by norm_num : (0 : ℝ) < 1000000000)]
    linarith
  have htr0 : (0 : ℝ) ≤ (d.time : ℝ) := by exact_mod_cast ht0
  have htr1 : (d.time : ℝ) < 86400000000000 := by exact_mod_cast ht1
  have htt0 : 0 ≤ (d.time : ℝ) / 86400 * ((stCoef1Nano : ℝ) / 1000000000000000000) := by
    unfold stCoef1Nano
    positivity
  have htt1 : (d.time : ℝ) / 86400 * ((stCoef1Nano : ℝ) / 1000000000000000000) <
      3609856235 / 10000000 := by
    unfold stCoef1Nano
    push_cast
    nlinarith
  constructor
  · unfold stBase
    nlinarith
  · unfold stBase
    nlinarith

/-- C2 counterexample: `solarMeanAnomaly` can reach `2π` and beyond on a
canonical `JulianDate` (two days after J2000, one second before day end),
and `siderealTime` can return a negative value on a canonical `JulianDate`
with an ordinary longitude argument: neither result is normalized into
`[0, 2π)`. -/
theorem C2_counterexample :
    2 * π ≤ solarMeanAnomaly ⟨2, 86399000000000⟩ ∧ siderealTime ⟨-284, 0⟩ (1 / 10) < 0 := by
  constructor
  · have hi : (maCoef0Nano + (2 : ℤ) * maCoef1Nano).tmod (360 * 1000000000) =
        359500300560 := by decide
    unfold solarMeanAnomaly maBase rad
    dsimp only
    rw [hi]
    have hQ : (360 : ℝ) ≤ (359500300560 : ℝ) / 1000000000 +
        (86399000000000 : ℝ) / 86400 * ((maCoef1Nano : ℝ) / 1000000000000000000) := by
      unfold maCoef1Nano
      push_cast
      norm_num
    rw [if_neg]
    · nlinarith [pi_pos]
    · push_neg
      nlinarith [pi_pos]
  · have hi : (stCoef0Nano + (-284 : ℤ) * stCoef1Nano).tmod (360 * 1000000000) =
        -359757074000 := by decide
    unfold siderealTime stBase rad
    dsimp only
    rw [hi]
    have hQ : ((-359757074000 : ℤ) : ℝ) / 1000000000 +
        ((0 : ℤ) : ℝ) / 86400 * ((stCoef1Nano : ℝ) / 1000000000000000000) =
        -(359757074 : ℝ) / 1000000 := by
      push_cast
      norm_num
    rw [if_pos]
    · push_cast
      nlinarith [pi_lt_d2, pi_gt_three]
    · push_cast
      nlinarith [pi_lt_d2, pi_gt_three]

/-- C2 amended: for canonical `JulianDate`s (`time ∈ [0, 86400e9)`) the
mean anomaly lies in `[0, rad·360.98560028)` — non-negative but possibly
at or above `2π` — and for `|lw| ≤ π` the sidereal time lies in
`(−π, rad·720.9856235 + π)`: the single conditional only repairs negative
values, it does not reduce the results into `[0, 2π)`. -/
theorem C2_angle_ranges (d : JulianDate) (lw : ℝ)
    (ht0 : 0 ≤ d.time) (ht1 : d.time < 86400000000000) (hlw : |lw| ≤ π) :
    0 ≤ solarMeanAnomaly d ∧
      solarMeanAnomaly d < rad * (360 + 985600280 / 1000000000) ∧
      -π < siderealTime d lw ∧
      siderealTime d lw < rad * (7209856235 / 10000000) + π := by
  have hma := maBase_bounds d ht0 ht1
  have hst := stBase_bounds d ht0 ht1
  have hrad : 0 < rad := by unfold rad; positivity
  have h2pi : rad * 360 = 2 * π := by unfold rad; ring
  have hlw1 : -π ≤ lw := neg_le_of_abs_le hlw
  have hlw2 : lw ≤ π := le_of_abs_le hlw
  refine ⟨?_, ?_, ?_, ?_⟩
  · unfold solarMeanAnomaly
    split
    · nlinarith
    · linarith [not_lt.mp (by assumption : ¬ maBase d < 0)]
  · unfold solarMeanAnomaly
    split
    · nlinarith
    · nlinarith [hma.2]
  · unfold siderealTime
    split
    · nlinarith
    · have := not_lt.mp (by assumption : ¬ stBase d - lw < 0)
      nlinarith [pi_pos]
  · unfold siderealTime
    split
    · nlinarith [pi_pos]
    · nlinarith [hst.2]

/-- C2 witness: the amended range theorem applied at the J2000 epoch with
`lw = 0`. -/
theorem C2_witness :
    (0 : ℤ) ≤ 0 ∧ (0 : ℤ) < 86400000000000 ∧ |(0 : ℝ)| ≤ π ∧
      (0 ≤ solarMeanAnomaly ⟨0, 0⟩ ∧
        solarMeanAnomaly ⟨0, 0⟩ < rad * (360 + 985600280 / 1000000000) ∧
        -π < siderealTime ⟨0, 0⟩ 0 ∧
        siderealTime ⟨0, 0⟩ 0 < rad * (7209856235 / 10000000) + π) :=
  ⟨le_refl 0, by norm_num, by simp [pi_nonneg],
    C2_angle_ranges ⟨0, 0⟩ 0 (le_refl 0) (by norm_num) (by simp [pi_nonneg])⟩

/-! ### C4: the rounding used for the Julian cycle -/

/-- C4 counterexample: at the canonical pre-J2000 date `⟨-3, 64800e9⟩`
(argument `-2.2509`), `julianCycle` returns `-3`, although `-2` is the
strictly nearest integer — for negative arguments the helper `round`
floors instead of rounding to nearest. -/
theorem C4_counterexample :
    ((-3 : ℤ) : ℝ) + (64800000000000 : ℝ) / (86400 * 1000000000) - j0 - 0 / (2 * π) =
        -2.2509 ∧
      julianCycle ⟨-3, 64800000000000⟩ 0 = -3 ∧
      |(-2.2509 : ℝ) - (-2)| < |(-2.2509 : ℝ) - (-3)| := by
  have harg : ((-3 : ℤ) : ℝ) + (64800000000000 : ℝ) / (86400 * 1000000000) - j0 -
      0 / (2 * π) = -2.2509 := by
    unfold j0
    push_cast
    norm_num
  refine ⟨harg, ?_, ?_⟩
  case refine_2 =>
    have h2 : |(-2.2509 : ℝ) - (-2)| = 0.2509 := by
      rw [abs_of_nonpos (by norm_num)]
      norm_num
    have h3 : |(-2.2509 : ℝ) - (-3)| = 0.7491 := by
      rw [abs_of_nonneg (by norm_num)]
      norm_num
    rw [h2, h3]
    norm_num
  unfold julianCycle
  have harg' : ((JulianDate.mk (-3) 64800000000000).julianDayNumber : ℝ) +
      ((JulianDate.mk (-3) 64800000000000).time : ℝ) / (86400 * 1000000000) - j0 -
        0 / (2 * π) = -2.2509 := harg
  rw [harg']
  unfold round truncInt
  dsimp only
  rw [pow_zero, one_mul]
  have hc : ⌈(-2.2509 : ℝ)⌉ = -2 := by
    rw [Int.ceil_eq_iff]
    constructor <;> norm_num
  have hf : ⌊(-2.2509 : ℝ)⌋ = -3 := by
    rw [Int.floor_eq_iff]
    constructor <;> norm_num
  rw [if_neg (by norm_num : ¬ (0 : ℝ) ≤ -2.2509), hc]
  rw [if_neg (by norm_num : ¬ (0.5 : ℝ) ≤ -2.2509 - ((-2 : ℤ) : ℝ)), hf]
  norm_num

/-- C4 amended: with `roundOn = 0.5` and zero decimal places (the only use,
in `julianCycle`), `round` performs half-up nearest-integer rounding for
non-negative arguments, but takes the floor of every negative argument
(so pre-J2000 dates are not rounded to the nearest cycle);
`julianCycle d lw` is exactly `round (d − j0 − lw/2π) 0.5 0`. -/
theorem C4_round_half_up (v : ℝ) :
    (0 ≤ v → round v 0.5 0 = ((⌊v + 1 / 2⌋ : ℤ) : ℝ)) ∧
      (v < 0 → round v 0.5 0 = ((⌊v⌋ : ℤ) : ℝ)) ∧
      ∀ d : JulianDate, ∀ lw : ℝ,
        julianCycle d lw =
          round ((d.julianDayNumber : ℝ) + (d.time : ℝ) / (86400 * 1000000000) - j0 -
            lw / (2 * π)) 0.5 0 := by
  refine ⟨?_, ?_, fun d lw => rfl⟩
  · intro hv
    unfold round truncInt
    dsimp only
    rw [pow_zero, one_mul, if_pos hv, div_one]
    have hfl : (⌊v⌋ : ℝ) ≤ v := Int.floor_le v
    have hfu : v < (⌊v⌋ : ℝ) + 1 := Int.lt_floor_add_one v
    by_cases hhalf : (0.5 : ℝ) ≤ v - (⌊v⌋ : ℝ)
    · rw [if_pos hhalf]
      have hceil : ⌈v⌉ = ⌊v⌋ + 1 := by
        rw [Int.ceil_eq_iff]
        push_cast
        constructor <;> [linarith; linarith]
      have hfloor : ⌊v + 1 / 2⌋ = ⌊v⌋ + 1 := by
        rw [Int.floor_eq_iff]
        push_cast
        constructor <;> [linarith; linarith]
      rw [hceil, hfloor]
    · rw [if_neg hhalf]
      have hfloor : ⌊v + 1 / 2⌋ = ⌊v⌋ := by
        rw [Int.floor_eq_iff]
        constructor <;> [linarith; linarith]
      rw [hfloor]
  · intro hv
    unfold round truncInt
    dsimp only
    rw [pow_zero, one_mul, if_neg (not_le.mpr hv), div_one]
    have hcl : v ≤ (⌈v⌉ : ℝ) := Int.le_ceil v
    rw [if_neg (by linarith : ¬ (0.5 : ℝ) ≤ v - (⌈v⌉ : ℝ))]

/-- C4 witness: half-up rounding at the non-negative argument `3/2`. -/
theorem C4_witness :
    (0 : ℝ) ≤ 3 / 2 ∧ round (3 / 2) 0.5 0 = ((⌊(3 / 2 : ℝ) + 1 / 2⌋ : ℤ) : ℝ) :=
  ⟨by norm_num, (C4_round_half_up (3 / 2)).1 (by norm_num)⟩

/-! ### Structure of the GetTimes result map -/

theorem mapInsert_same (k : String) (v : Option ℤ) (m : EventMap) :
    mapInsert k v m k = some v := by
  unfold mapInsert
  rw [if_pos rfl]

theorem mapInsert_other {k' k : String} (h : k' ≠ k) (v : Option ℤ) (m : EventMap) :
    mapInsert k v m k' = m k' := by
  unfold mapInsert
  rw [if_neg h]

theorem mapInsert_isSome {k' k : String} (v : Option ℤ) (m : EventMap)
    (h : (m k').isSome) : ((mapInsert k v m) k').isSome := by
  unfold mapInsert
  split
  · rfl
  · exact h

theorem stepEntry_preserve (t : ℤ) (lat lng : ℝ) (acc : EventMap) (st : sunTime) {k : String}
    (h1 : k ≠ st.riseName) (h2 : k ≠ st.setName) :
    stepEntry t lat lng acc st k = acc k := by
  unfold stepEntry
  by_cases hs : st.setName ≠ ""
  · rw [if_pos hs, mapInsert_other h2]
    by_cases hr : st.riseName ≠ ""
    · rw [if_pos hr, mapInsert_other h1]
    · rw [if_neg hr]
  · rw [if_neg hs]
    by_cases hr : st.riseName ≠ ""
    · rw [if_pos hr, mapInsert_other h1]
    · rw [if_neg hr]

theorem stepEntry_isSome (t : ℤ) (lat lng : ℝ) (acc : EventMap) (st : sunTime) {k : String}
    (h : (acc k).isSome) : ((stepEntry t lat lng acc st) k).isSome := by
  unfold stepEntry
  split
  · apply mapInsert_isSome
    split
    · exact mapInsert_isSome _ _ h
    · exact h
  · split
    · exact mapInsert_isSome _ _ h
    · exact h

theorem stepEntry_empty (t : ℤ) (lat lng : ℝ) (acc : EventMap) (st : sunTime)
    (h : acc "" = none) : stepEntry t lat lng acc st "" = none := by
  unfold stepEntry
  by_cases hs : st.setName ≠ ""
  · rw [if_pos hs, mapInsert_other (Ne.symm hs)]
    by_cases hr : st.riseName ≠ ""
    · rw [if_pos hr, mapInsert_other (Ne.symm hr)]
      exact h
    · rw [if_neg hr]
      exact h
  · rw [if_neg hs]
    by_cases hr : st.riseName ≠ ""
    · rw [if_pos hr, mapInsert_other (Ne.symm hr)]
      exact h
    · rw [if_neg hr]
      exact h

theorem foldl_preserve (t : ℤ) (lat lng : ℝ) (l : List sunTime) (m : EventMap) (k : String)
    (h : ∀ st ∈ l, k ≠ st.riseName ∧ k ≠ st.setName) :
    (l.foldl (stepEntry t lat lng) m) k = m k := by
  induction l generalizing m with
  | nil => rfl
  | cons a l ih =>
    rw [List.foldl_cons, ih _ fun st hst => h st (List.mem_cons_of_mem a hst)]
    exact stepEntry_preserve t lat lng m a (h a (List.mem_cons_self a l)).1
      (h a (List.mem_cons_self a l)).2

theorem foldl_isSome (t : ℤ) (lat lng : ℝ) (l : List sunTime) (m : EventMap) (k : String)
    (h : (m k).isSome) : ((l.foldl (stepEntry t lat lng) m) k).isSome := by
  induction l generalizing m with
  | nil => exact h
  | cons a l ih =>
    rw [List.foldl_cons]
    exact ih _ (stepEntry_isSome t lat lng m a h)

theorem foldl_empty (t : ℤ) (lat lng : ℝ) (l : List sunTime) (m : EventMap)
    (h : m "" = none) : (l.foldl (stepEntry t lat lng) m) "" = none := by
  induction l generalizing m with
  | nil => exact h
  | cons a l ih =>
    rw [List.foldl_cons]
    exact ih _ (stepEntry_empty t lat lng m a h)

theorem stepEntry_self_rise (t : ℤ) (lat lng : ℝ) (acc : EventMap) (st : sunTime)
    (hr : st.riseName ≠ "") : ((stepEntry t lat lng acc st) st.riseName).isSome := by
  unfold stepEntry
  rw [if_pos hr]
  split
  · apply mapInsert_isSome
    rw [mapInsert_same]
    rfl
  · rw [mapInsert_same]
    rfl

theorem stepEntry_self_set (t : ℤ) (lat lng : ℝ) (acc : EventMap) (st : sunTime)
    (hs : st.setName ≠ "") : ((stepEntry t lat lng acc st) st.setName).isSome := by
  unfold stepEntry
  rw [if_pos hs, mapInsert_same]
  rfl

theorem foldl_emit (t : ℤ) (lat lng : ℝ) (l : List sunTime) (m : EventMap) {st : sunTime}
    (hst : st ∈ l) :
    (st.riseName ≠ "" → ((l.foldl (stepEntry t lat lng) m) st.riseName).isSome) ∧
      (st.setName ≠ "" → ((l.foldl (stepEntry t lat lng) m) st.setName).isSome) := by
  induction l generalizing m with
  | nil => cases hst
  | cons a l ih =>
    rcases List.mem_cons.mp hst with rfl | hmem
    · constructor
      · intro hr
        rw [List.foldl_cons]
        exact foldl_isSome t lat lng l _ _ (stepEntry_self_rise t lat lng m st hr)
      · intro hs
        rw [List.foldl_cons]
        exact foldl_isSome t lat lng l _ _ (stepEntry_self_set t lat lng m st hs)
    · rw [List.foldl_cons]
      exact ih _ hmem

/-! ### C6: totality and NaN propagation in GetTimes -/

/-- C6: no event is omitted or special-cased: every configured definition
with a non-empty name gets its entry in the result map, and whenever the
`acos` argument `(sin h − sin φ·sin dec)/(cos φ·cos dec)` falls outside
`[−1, 1]`, `getSetJ` yields the NaN-derived value (modelled `none`)
rather than an error. -/
theorem C6_nan_propagation :
    (∀ (s : SunCalc) (t : ℤ) (lat lng : ℝ), ∀ st ∈ s.times,
        (st.riseName ≠ "" → ((GetTimes s t lat lng) st.riseName).isSome) ∧
        (st.setName ≠ "" → ((GetTimes s t lat lng) st.setName).isSome)) ∧
      ∀ h lw phi dec n m l : ℝ, cos phi * cos dec ≠ 0 →
        1 < |(sin h - sin phi * sin dec) / (cos phi * cos dec)| →
        getSetJ h lw phi dec n m l = none := by
  constructor
  · intro s t lat lng st hst
    unfold GetTimes
    exact foldl_emit t lat lng s.times _ hst
  · intro h lw phi dec n m l hden habs
    unfold getSetJ hourAngle
    rw [if_neg]
    · rfl
    · rintro ⟨-, habs'⟩
      exact absurd habs' (not_le.mpr habs)

/-- C6 witness: the sunrise entry is present for the default calculator,
and a concrete out-of-range `acos` argument (`h = −π/2`, `φ = dec = π/3`,
quotient `−7`) makes `getSetJ` return the NaN marker. -/
theorem C6_witness :
    ((GetTimes NewSunCalc 0 0 0) "sunrise").isSome ∧
      getSetJ (-(π / 2)) 0 (π / 3) (π / 3) 0 0 0 = none := by
  constructor
  · exact (C6_nan_propagation.1 NewSunCalc 0 0 0 ⟨-0.833, "sunrise", "sunset"⟩
      (by simp [NewSunCalc])).1 (by decide)
  · apply C6_nan_propagation.2
    · rw [Real.cos_pi_div_three]
      norm_num
    · have hs3 : Real.sqrt 3 * Real.sqrt 3 = 3 := Real.mul_self_sqrt (by norm_num)
      rw [Real.sin_neg, Real.sin_pi_div_two, Real.sin_pi_div_three, Real.cos_pi_div_three]
      have hx : (-1 - Real.sqrt 3 / 2 * (Real.sqrt 3 / 2)) / ((1 : ℝ) / 2 * (1 / 2)) = -7 := by
        field_simp
        nlinarith [hs3]
      rw [hx]
      rw [abs_of_nonpos (by norm_num)]
      norm_num

/-! ### C7: solarNoon and nadir entries of GetTimes -/

/-- C7 counterexample: a configured definition may be named `solarNoon`;
its entry then overwrites the unconditional one, so with such a
definition (rise name `solarNoon`, latitude 90° making the hour-angle
NaN) the `solarNoon` key no longer holds `toInstant(jNoon)` but the
NaN-derived marker. -/
theorem C7_counterexample :
    (GetTimes (AddTime NewSunCalc 0 "solarNoon" "") 0 90 0) "solarNoon" = some none := by
  have hjset : jSetOf ⟨0, "solarNoon", ""⟩ 0 90 0 = none := by
    unfold jSetOf getSetJ hourAngle
    rw [if_neg]
    · rfl
    · rintro ⟨hne, -⟩
      apply hne
      have hphi : phiOf 90 = π / 2 := by
        unfold phiOf rad
        ring
      rw [hphi, Real.cos_pi_div_two, zero_mul]
  unfold GetTimes
  have htimes : (AddTime NewSunCalc 0 "solarNoon" "").times =
      NewSunCalc.times ++ [⟨0, "solarNoon", ""⟩] := rfl
  rw [htimes, List.foldl_append, List.foldl_cons, List.foldl_nil]
  unfold stepEntry
  rw [if_neg (by decide : ¬ ("" : String) ≠ ""), if_pos (by decide : ("solarNoon" : String) ≠ "")]
  rw [mapInsert_same]
  unfold jRiseOf
  rw [hjset]
  rfl

/-- C7 amended: provided no configured definition is named `solarNoon` or
`nadir` (the code overwrites colliding keys), the map always carries
`solarNoon = toInstant(jNoon)` and `nadir = toInstant(jNoon − 0.5)`, one
entry per non-empty configured rise/set name, and no entry under the empty
name. -/
theorem C7_solarNoon_nadir (s : SunCalc) (t : ℤ) (lat lng : ℝ)
    (hres : ∀ st ∈ s.times, "solarNoon" ≠ st.riseName ∧ "solarNoon" ≠ st.setName ∧
      "nadir" ≠ st.riseName ∧ "nadir" ≠ st.setName) :
    (GetTimes s t lat lng) "solarNoon" = some (some (timeOfJ (jNoonAt t lng))) ∧
      (GetTimes s t lat lng) "nadir" = some (some (timeOfJ (jNoonAt t lng - 0.5))) ∧
      (∀ st ∈ s.times,
        (st.riseName ≠ "" → ((GetTimes s t lat lng) st.riseName).isSome) ∧
        (st.setName ≠ "" → ((GetTimes s t lat lng) st.setName).isSome)) ∧
      (GetTimes s t lat lng) "" = none := by
  refine ⟨?_, ?_, ?_, ?_⟩
  · unfold GetTimes
    rw [foldl_preserve t lat lng s.times _ _ fun st hst => ⟨(hres st hst).1, (hres st hst).2.1⟩]
    rw [mapInsert_other (by decide : ("solarNoon" : String) ≠ "nadir"), mapInsert_same]
  · unfold GetTimes
    rw [foldl_preserve t lat lng s.times _ _ fun st hst =>
      ⟨(hres st hst).2.2.1, (hres st hst).2.2.2⟩]
    rw [mapInsert_same]
  · intro st hst
    unfold GetTimes
    exact foldl_emit t lat lng s.times _ hst
  · unfold GetTimes
    apply foldl_empty
    rw [mapInsert_other (by decide : ("" : String) ≠ "nadir"),
      mapInsert_other (by decide : ("" : String) ≠ "solarNoon")]

/-- C7 witness: the amended statement applied to the default calculator. -/
theorem C7_witness :
    (GetTimes NewSunCalc 0 0 0) "solarNoon" = some (some (timeOfJ (jNoonAt 0 0))) ∧
      (GetTimes NewSunCalc 0 0 0) "" = none := by
  have hres : ∀ st ∈ NewSunCalc.times, ("solarNoon" : String) ≠ st.riseName ∧
      ("solarNoon" : String) ≠ st.setName ∧ ("nadir" : String) ≠ st.riseName ∧
      ("nadir" : String) ≠ st.setName := by
    intro st hst
    simp only [NewSunCalc, List.mem_cons, List.not_mem_nil, or_false] at hst
    rcases hst with rfl | rfl | rfl | rfl | rfl | rfl <;>
      refine ⟨?_, ?_, ?_, ?_⟩ <;> decide
  exact ⟨(C7_solarNoon_nadir NewSunCalc 0 0 0 hres).1,
    (C7_solarNoon_nadir NewSunCalc 0 0 0 hres).2.2.2⟩

/-! ### C10: AddTime appends, GetTimes does not mutate -/

/-- C10: `AddTime` appends exactly one definition at the end, leaving all
previously configured definitions unchanged and in order (`GetTimes` and
`GetPosition` are read-only functions of the calculator); consequently a
subsequent `GetTimes` still emits every previously configured non-empty
event name. -/
theorem C10_addTime_append :
    (∀ (s : SunCalc) (a : ℝ) (r n : String),
        (AddTime s a r n).times = s.times ++ [⟨a, r, n⟩]) ∧
      ∀ (s : SunCalc) (a : ℝ) (r n : String) (t : ℤ) (lat lng : ℝ), ∀ st ∈ s.times,
        (st.riseName ≠ "" → ((GetTimes (AddTime s a r n) t lat lng) st.riseName).isSome) ∧
        (st.setName ≠ "" → ((GetTimes (AddTime s a r n) t lat lng) st.setName).isSome) := by
  refine ⟨fun s a r n => rfl, ?_⟩
  intro s a r n t lat lng st hst
  unfold GetTimes
  exact foldl_emit t lat lng _ _ (List.mem_append_left _ hst)

/-- C10 witness: appending a new definition to the default calculator keeps
the sunrise entry emitted. -/
theorem C10_witness :
    (AddTime NewSunCalc 1 "up" "down").times = NewSunCalc.times ++ [⟨1, "up", "down"⟩] ∧
      ((GetTimes (AddTime NewSunCalc 1 "up" "down") 0 0 0) "sunrise").isSome :=
  ⟨C10_addTime_append.1 NewSunCalc 1 "up" "down",
    (C10_addTime_append.2 NewSunCalc 1 "up" "down" 0 0 0 ⟨-0.833, "sunrise", "sunset"⟩
      (by simp [NewSunCalc])).1 (by decide)⟩

/-! ### C5: azimuth/altitude ranges -/

theorem azimuth_mem_Ioc (H phi dec : ℝ) : azimuth H phi dec ∈ Set.Ioc (-π) π := by
  unfold azimuth atan2
  exact Complex.arg_mem_Ioc _

theorem altitudeArg_abs_le_one (H phi dec : ℝ) : |altitudeArg H phi dec| ≤ 1 := by
  have h1 := sin_sq_add_cos_sq phi
  have h2 := sin_sq_add_cos_sq dec
  have h3 := cos_sq_le_one H
  have h4 := sq_nonneg (cos phi)
  have h5 := sq_nonneg (sin phi * cos dec - cos phi * cos H * sin dec)
  have h6 : cos phi ^ 2 * cos H ^ 2 ≤ cos phi ^ 2 := by nlinarith
  have hexp : (sin phi * sin dec + cos phi * cos dec * cos H) ^ 2 =
      sin phi ^ 2 * (sin dec ^ 2 + cos dec ^ 2) +
        cos phi ^ 2 * cos H ^ 2 * (sin dec ^ 2 + cos dec ^ 2) -
        (sin phi * cos dec - cos phi * cos H * sin dec) ^ 2 := by ring
  rw [h2] at hexp
  have hsq : altitudeArg H phi dec ^ 2 ≤ 1 := by
    unfold altitudeArg
    rw [hexp]
    linarith
  refine abs_le.mpr ⟨?_, ?_⟩
  · nlinarith [hsq, sq_nonneg (altitudeArg H phi dec + 1)]
  · nlinarith [hsq, sq_nonneg (altitudeArg H phi dec - 1)]

theorem altitude_mem_Icc (H phi dec : ℝ) : altitude H phi dec ∈ Set.Icc (-(π / 2)) (π / 2) := by
  unfold altitude
  exact arcsin_mem_Icc _

/-- C5 amended: for the sun, `GetPosition` always returns an azimuth in
`(−π, π]` and an altitude in `[−π/2, π/2]` (the `asin` argument provably
stays in `[−1, 1]`); for the moon the azimuth is in `(−π, π]` and the
altitude **before** the refraction correction is in `[−π/2, π/2]`, but the
corrected altitude can leave that interval (see the counterexample). -/
theorem C5_position_angle_ranges (t : ℤ) (lat lng : ℝ) :
    (GetPosition t lat lng).1 ∈ Set.Ioc (-π) π ∧
      (GetPosition t lat lng).2 ∈ Set.Icc (-(π / 2)) (π / 2) ∧
      (GetMoonPosition t lat lng).1 ∈ Set.Ioc (-π) π ∧
      moonAltPre t lat lng ∈ Set.Icc (-(π / 2)) (π / 2) ∧
      |altitudeArg (siderealTime (toDays t) (lwOf lng) - (sunCoords (toDays t)).2) (phiOf lat)
          (sunCoords (toDays t)).1| ≤ 1 ∧
      |altitudeArg (moonH t lng) (phiOf lat) (moonCoords (toDays t)).1| ≤ 1 := by
  refine ⟨?_, ?_, ?_, ?_, altitudeArg_abs_le_one _ _ _, altitudeArg_abs_le_one _ _ _⟩
  · exact azimuth_mem_Ioc _ _ _
  · exact altitude_mem_Icc _ _ _
  · exact azimuth_mem_Ioc _ _ _
  · exact altitude_mem_Icc _ _ _

/-- C5 counterexample (negation of the moon-altitude claim): there are a
latitude and longitude for which the refraction-corrected altitude
returned by `GetMoonPosition` exceeds `π/2`: near the pole of the
empirical correction term `0.017·rad / tan(h + 10.26·rad/(h + 5.10·rad))`
the added term is unbounded. -/
theorem C5_counterexample :
    ∃ lat lng : ℝ, π / 2 < (GetMoonPosition 0 lat lng).2.1 := by
  have hradpos : (0 : ℝ) < rad := by
    unfold rad
    positivity
  have hradne : (rad : ℝ) ≠ 0 := ne_of_gt hradpos
  have hεpos : (0 : ℝ) < rad * 0.017 / 2 := by positivity
  have hrad_eq : rad = π / 180 := rfl
  -- IVT: find h₀ with h₀ + 10.26·rad/(h₀ + 5.10·rad) = π + arctan ε
  have ha0 : (-(rad * 5.10) + rad * 10.26 / 10 : ℝ) ≤ 0 := by nlinarith
  have hane : ∀ x ∈ Set.Icc (-(rad * 5.10) + rad * 10.26 / 10 : ℝ) 0, x + rad * 5.10 ≠ 0 := by
    intro x hx
    have := hx.1
    nlinarith
  have hcont : ContinuousOn (fun h : ℝ => h + rad * 10.26 / (h + rad * 5.10))
      (Set.Icc (-(rad * 5.10) + rad * 10.26 / 10) 0) := by
    apply ContinuousOn.add (continuousOn_id)
    exact ContinuousOn.div continuousOn_const
      (Continuous.continuousOn (by continuity)) hane
  have harct0 : 0 ≤ arctan (rad * 0.017 / 2) := by
    have := arctan_strictMono.monotone hεpos.le
    rwa [arctan_zero] at this
  have harct2 : arctan (rad * 0.017 / 2) < π / 2 := arctan_lt_pi_div_two _
  have hmemIcc : π + arctan (rad * 0.017 / 2) ∈
      Set.Icc ((fun h : ℝ => h + rad * 10.26 / (h + rad * 5.10)) 0)
        ((fun h : ℝ => h + rad * 10.26 / (h + rad * 5.10))
          (-(rad * 5.10) + rad * 10.26 / 10)) := by
    constructor
    · show (0 : ℝ) + rad * 10.26 / (0 + rad * 5.10) ≤ π + arctan (rad * 0.017 / 2)
      have hq : (0 : ℝ) + rad * 10.26 / (0 + rad * 5.10) = 10.26 / 5.10 := by
        rw [zero_add, zero_add, mul_div_mul_left _ _ hradne]
      rw [hq]
      nlinarith [pi_gt_three]
    · show π + arctan (rad * 0.017 / 2) ≤
        (-(rad * 5.10) + rad * 10.26 / 10) + rad * 10.26 / ((-(rad * 5.10) + rad * 10.26 / 10) + rad * 5.10)
      have hq : ((-(rad * 5.10) + rad * 10.26 / 10) + rad * 5.10 : ℝ) = rad * 10.26 / 10 := by
        ring
      rw [hq]
      have hq2 : (rad * 10.26 / (rad * 10.26 / 10) : ℝ) = 10 := by
        field_simp
      rw [hq2]
      linarith [pi_lt_d2, harct2, hrad_eq]
  obtain ⟨h₀, hh₀mem, hgh₀⟩ :=
    intermediate_value_Icc' ha0 hcont hmemIcc
  simp only at hgh₀
  have hh₀lo : -(rad * 5.10) + rad * 10.26 / 10 ≤ h₀ := hh₀mem.1
  have hh₀hi : h₀ ≤ 0 := hh₀mem.2
  have hh₀pi : -(π / 2) ≤ h₀ ∧ h₀ ≤ π / 2 := by
    constructor
    · linarith [hrad_eq, pi_pos, hh₀lo]
    · linarith [pi_pos, hh₀hi]
  -- moon coordinates at the fixed instant 0
  have hdec_mem : (moonCoords (toDays 0)).1 ∈ Set.Icc (-(π / 2)) (π / 2) := by
    unfold moonCoords declination
    exact arcsin_mem_Icc _
  have hra_mem : (moonCoords (toDays 0)).2.1 ∈ Set.Ioc (-π) π := by
    unfold moonCoords rightAscension atan2
    exact Complex.arg_mem_Ioc _
  -- choose longitude so that the hour angle is exactly 2π
  refine ⟨((moonCoords (toDays 0)).1 + (π / 2 - h₀)) * 180 / π,
    -(stBase (toDays 0) - (moonCoords (toDays 0)).2.1 - 2 * π) * 180 / π, ?_⟩
  have hlwOf : lwOf (-(stBase (toDays 0) - (moonCoords (toDays 0)).2.1 - 2 * π) * 180 / π) =
      stBase (toDays 0) - (moonCoords (toDays 0)).2.1 - 2 * π := by
    unfold lwOf rad
    field_simp
    ring
  have hphiOf : phiOf (((moonCoords (toDays 0)).1 + (π / 2 - h₀)) * 180 / π) =
      (moonCoords (toDays 0)).1 + (π / 2 - h₀) := by
    unfold phiOf rad
    field_simp
    ring
  have hsid : siderealTime (toDays 0)
      (stBase (toDays 0) - (moonCoords (toDays 0)).2.1 - 2 * π) =
      (moonCoords (toDays 0)).2.1 + 2 * π := by
    unfold siderealTime
    rw [show stBase (toDays 0) - (stBase (toDays 0) - (moonCoords (toDays 0)).2.1 - 2 * π) =
      (moonCoords (toDays 0)).2.1 + 2 * π from by ring]
    rw [if_neg]
    push_neg
    nlinarith [hra_mem.1, pi_pos]
  have hH : moonH 0 (-(stBase (toDays 0) - (moonCoords (toDays 0)).2.1 - 2 * π) * 180 / π) =
      2 * π := by
    unfold moonH
    rw [hlwOf, hsid]
    ring
  have hpre : moonAltPre 0 (((moonCoords (toDays 0)).1 + (π / 2 - h₀)) * 180 / π)
      (-(stBase (toDays 0) - (moonCoords (toDays 0)).2.1 - 2 * π) * 180 / π) = h₀ := by
    unfold moonAltPre altitude altitudeArg
    rw [hH, hphiOf, Real.cos_two_pi]
    rw [show sin ((moonCoords (toDays 0)).1 + (π / 2 - h₀)) * sin (moonCoords (toDays 0)).1 +
        cos ((moonCoords (toDays 0)).1 + (π / 2 - h₀)) * cos (moonCoords (toDays 0)).1 * 1 =
        cos (((moonCoords (toDays 0)).1 + (π / 2 - h₀)) - (moonCoords (toDays 0)).1) from by
      rw [Real.cos_sub]; ring]
    rw [show (((moonCoords (toDays 0)).1 + (π / 2 - h₀)) - (moonCoords (toDays 0)).1) =
      π / 2 - h₀ from by ring]
    rw [Real.cos_pi_div_two_sub]
    exact arcsin_sin hh₀pi.1 hh₀pi.2
  have htan : tan (h₀ + rad * 10.26 / (h₀ + rad * 5.10)) = rad * 0.017 / 2 := by
    rw [hgh₀, add_comm π (arctan (rad * 0.017 / 2)), Real.tan_periodic (arctan (rad * 0.017 / 2)),
      tan_arctan]
  have hcorr : rad * 0.017 / (rad * 0.017 / 2) = 2 := by
    have hne : rad * 0.017 ≠ 0 := by positivity
    field_simp
  unfold GetMoonPosition
  dsimp only
  rw [hpre, htan, hcorr]
  linarith [hrad_eq, pi_lt_d2, pi_gt_three, hh₀lo]

/-! ### C9: JulianFromDayTime / DayTime round trip -/

/-- C9: for every pair of integers `(n, t)` (`t` possibly outside
`[0, 86400e9)`), `JulianFromDayTime` followed by `DayTime` returns exactly
`(n, t)`: the constructor performs no normalization, clamping or
validation. -/
theorem C9_dayTime_roundtrip (n t : ℤ) :
    (JulianFromDayTime n t).DayTime = (n, t) := rfl

end

end Astrocalc
